import Mathlib

/-!
Verification of the faceted search-query parser
(`src/sidebar/util/search-filter.js`).

JavaScript strings are modelled as `List Char` (the source only performs
per-code-unit operations on them; all inputs of interest are ASCII, where
UTF-16 code units and characters coincide).  JavaScript `String.prototype`
operations (`slice`, `indexOf`) are embedded with their exact semantics,
including negative-index wrap-around, since the source relies on
`term.slice(0, term.indexOf(':'))` where `indexOf` may return `-1`.
-/

/-- A JavaScript string, modelled as its list of characters. -/
abbrev Str := List Char

/-- Literal helper: a Lean string literal as a `Str`. -/
def cs (s : String) : Str := s.data

/-- The JavaScript `\s` character class (ECMAScript WhiteSpace and
LineTerminator productions). -/
def jsWhitespace (c : Char) : Bool :=
  c = '\t' || c = '\n' || c = '\x0b' || c = '\x0c' || c = '\r' || c = ' ' ||
  c = '\u00A0' || c = '\u1680' || ('\u2000' ≤ c && c ≤ '\u200A') ||
  c = '\u2028' || c = '\u2029' || c = '\u202F' || c = '\u205F' ||
  c = '\u3000' || c = '\uFEFF'

/-- A quote character, `"` or `'`. -/
def isQuoteChar (c : Char) : Bool := c = '"' || c = '\''

/-- A character matched by `[^\s"']`: neither whitespace nor a quote. -/
def plainChar (c : Char) : Bool := !jsWhitespace c && !isQuoteChar c

/-- Resolve a JavaScript `String.prototype.slice` index argument against a
string of length `len`: negative indices count from the end (clamped below
at `0`), non-negative indices are clamped above at `len`. -/
def jsSliceIdx (len : Nat) (i : Int) : Nat :=
  if i < 0 then len - i.natAbs else min i.toNat len

/-- JavaScript `s.slice(a, b)`. -/
def jsSlice (l : Str) (a b : Int) : Str :=
  (l.take (jsSliceIdx l.length b)).drop (jsSliceIdx l.length a)

/-- JavaScript `s.slice(a)` (one-argument form, to the end of the string). -/
def jsSliceFrom (l : Str) (a : Int) : Str :=
  l.drop (jsSliceIdx l.length a)

/-- JavaScript `s.indexOf(c)` for a single character: the index of the first
occurrence, or `-1` when absent. -/
def jsIndexOf (l : Str) (c : Char) : Int :=
  match l with
  | [] => -1
  | d :: ds =>
    if d = c then 0
    else
      let r := jsIndexOf ds c
      if r < 0 then -1 else r + 1

/-!
### The tokenizer regex

`tokenize` matches the global regex `/(?:[^\s"']+|"[^"]*"|'[^']*')+/g`.
A match is a maximal greedy concatenation of "units", where a unit is
either a nonempty run of plain characters, or a span delimited by a pair
of equal quote characters (the body of which cannot contain that quote,
so a quoted unit always extends to the *next* occurrence of its quote).
The alternatives are mutually exclusive on their first character, so the
match at any position is deterministic; the scanner below reproduces the
engine's leftmost-match, then-resume-after behaviour.  The recursion is
fuelled by the input length, which strictly bounds the number of steps
because every unit consumes at least one character.
-/

/-- Split `l` at the first occurrence of the quote `q`: returns the body
before `q` and the remainder after it, or `none` when `q` does not occur. -/
def takeUntil (q : Char) : Str → Option (Str × Str)
  | [] => none
  | c :: cesu =>
    if c = q then some ([], cesu)
    else
      match takeUntil q cesu with
      | some (p, r) => some (c :: p, r)
      | none => none

/-- Match one regex unit (`[^\s"']+`, `"[^"]*"` or `'[^']*'`) at the head of
the input; returns the consumed characters and the rest. -/
def matchUnit (l : Str) : Option (Str × Str) :=
  match l with
  | [] => none
  | c :: cesu =>
    if isQuoteChar c then
      match takeUntil c cesu with
      | some (body, rest) => some (c :: body ++ [c], rest)
      | none => none
    else if jsWhitespace c then none
    else some (c :: cesu.takeWhile plainChar, cesu.dropWhile plainChar)

/-- Greedily match as many units as possible (the `(?:...)+` loop), fuelled. -/
def munitsF : Nat → Str → Str × Str
  | 0, l => ([], l)
  | fuel + 1, l =>
    match matchUnit l with
    | none => ([], l)
    | some (u, r) =>
      let p := munitsF fuel r
      (u ++ p.1, p.2)

/-- All matches of the tokenizer regex (the `String.prototype.match` result
with the `g` flag), fuelled: at each position, if a unit can start there a
maximal match is emitted and scanning resumes after it, otherwise the
scanner advances one character. -/
def tokenMatchesF : Nat → Str → List Str
  | 0, _ => []
  | _ + 1, [] => []
  | fuel + 1, c :: cesu =>
    match matchUnit (c :: cesu) with
    | none => tokenMatchesF fuel cesu
    | some _ =>
      let p := munitsF (c :: cesu).length (c :: cesu)
      p.1 :: tokenMatchesF fuel p.2

/-- `searchText.match(/(?:[^\s"']+|"[^"]*"|'[^']*')+/g)`, as a list
(`null` becomes `[]`).  The fuel `l.length` suffices: every emitted match
or skipped character strictly shrinks the remaining input. -/
def tokenMatches (l : Str) : List Str := tokenMatchesF l.length l

/-- `removeSurroundingQuotes`: remove a quote character from the beginning
and end of the string, but only if they match. -/
def removeSurroundingQuotes (text : Str) : Str :=
  let start := jsSlice text 0 1
  let stop := jsSliceFrom text (-1)
  if (start = ['"'] ∨ start = ['\'']) ∧ start = stop then
    jsSlice text 1 ((text.length : Int) - 1)
  else text

/-- The fixed vocabulary `['group', 'quote', 'since', 'tag', 'text', 'uri',
'user']` tested by `splitTerm`. -/
def powerFields : List Str :=
  [cs "group", cs "quote", cs "since", cs "tag", cs "text", cs "uri", cs "user"]

/-- `splitTerm`: split a search term into filter and data.  Note the source
computes `term.slice(0, term.indexOf(':'))`, so for a colon-free term the
candidate filter is the term with its final character removed (an artifact
of `indexOf` returning `-1`). -/
def splitTerm (term : Str) : Option Str × Str :=
  let filt := jsSlice term 0 (jsIndexOf term ':')
  if filt = [] then (none, term)
  else if filt ∈ powerFields then
    (some filt, jsSliceFrom term ((filt.length : Int) + 1))
  else (none, term)

/-- The per-token map step of `tokenize`: strip quotes from field values,
e.g. `tag:"foo bar"` becomes `tag:foo bar`. -/
def stripFieldValueQuotes (token : Str) : Str :=
  match (splitTerm token).1 with
  | some filt => filt ++ ':' :: removeSurroundingQuotes (splitTerm token).2
  | none => token

/-- `tokenize`: split a search query into non-empty tokens, quote-aware. -/
def tokenize (searchText : Str) : List Str :=
  (((tokenMatches searchText).map removeSurroundingQuotes).filter
      (fun token => !token.isEmpty)).map stripFieldValueQuotes


/-!
### The flat projector `toObject`
-/

/-- `backendFilter`: rename the `tag` field to `tags` for the backend. -/
def backendFilter (field : Str) : Str :=
  if field = cs "tag" then cs "tags" else field

/-- The output key and value contributed by one token in `toObject`:
`splitTerm` the token; with no recognized field, the field is `any` and the
data is the full token; the field is then renamed by `backendFilter`. -/
def flatEntry (term : Str) : Str × Str :=
  match splitTerm term with
  | (some field, data) => (backendFilter field, data)
  | (none, _) => (backendFilter (cs "any"), term)

/-- The JavaScript object update `obj[k] ? obj[k].push(v) : obj[k] = [v]`:
append `v` to the list at the first entry with key `k`, or create the entry
at the end (object insertion order) when the key is absent. -/
def pushField : List (Str × List Str) → Str → Str → List (Str × List Str)
  | [], k, v => [(k, [v])]
  | (k', vs) :: rest, k, v =>
    if k' = k then (k', vs ++ [v]) :: rest
    else (k', vs) :: pushField rest k v

/-- One loop iteration of `toObject`. -/
def flatStep (obj : List (Str × List Str)) (term : Str) : List (Str × List Str) :=
  pushField obj (flatEntry term).1 (flatEntry term).2

/-- `toObject`: parse a search query into a map of search field to terms,
as an insertion-ordered association list. -/
def toObject (searchText : Str) : List (Str × List Str) :=
  (tokenize searchText).foldl flatStep []

/-!
### The facet builder `generateFacetedFilter`
-/

/-- The relative-duration unit table of the `since` facet:
`{sec, min, hour, day, week, month, year}` with their multipliers in
seconds (`month` is 30 days, `year` 365 days). -/
def secondsPerUnit : List (Str × Nat) :=
  [(cs "sec", 1), (cs "min", 60), (cs "hour", 60 * 60),
   (cs "day", 24 * 60 * 60), (cs "week", 7 * (24 * 60 * 60)),
   (cs "month", 30 * (24 * 60 * 60)), (cs "year", 365 * (24 * 60 * 60))]

/-- The numeric value of a digit string, as matched by `(\d+)` and read by
`parseFloat` (all inputs reaching it are plain decimal digit strings). -/
def digitsToNat (l : Str) : Nat :=
  l.foldl (fun n c => n * 10 + (c.toNat - 48)) 0

/-- The `since` value match `time.match(/^(\d+)(sec|min|hour|day|week|month|year)?$/)`
followed by `value * secondsPerUnit[unit]`.  The greedy `\d+` group takes the
maximal digit prefix; no unit name starts with a digit, so backtracking can
never shorten it, and the anchored match succeeds exactly when the remainder
after the digits is empty (unit defaults to `sec`, multiplier 1) or is
exactly one unit name. -/
def parseSince (time : Str) : Option Nat :=
  let digits := time.takeWhile Char.isDigit
  let rest := time.dropWhile Char.isDigit
  if digits.isEmpty then none
  else if rest.isEmpty then some (digitsToNat digits * 1)
  else
    match secondsPerUnit.lookup rest with
    | some m => some (digitsToNat digits * m)
    | none => none

/-- JavaScript `String.prototype.toLowerCase` (ASCII range; every character
the `since` grammar can accept is ASCII). -/
def toLowerStr (l : Str) : Str := l.map Char.toLower

/-- The seven term accumulators of `generateFacetedFilter` (`since` holds
numbers, the others strings). -/
structure FState where
  any : List Str
  quote : List Str
  since : List Nat
  tag : List Str
  text : List Str
  uri : List Str
  user : List Str
deriving DecidableEq

/-- The loop body of `generateFacetedFilter`: compute
`filter = term.slice(0, term.indexOf(':'))` and
`fieldValue = term.slice(filter.length + 1)` by raw slicing and dispatch on
`filter` (the `switch`); `since` values are parsed from
`term.slice(6).toLowerCase()` and silently dropped when unparseable;
unrecognized filters (including `group`) send the full term to `any`. -/
def applyTerm (st : FState) (term : Str) : FState :=
  let filt := jsSlice term 0 (jsIndexOf term ':')
  let fieldValue := jsSliceFrom term ((filt.length : Int) + 1)
  if filt = cs "quote" then { st with quote := st.quote ++ [fieldValue] }
  else if filt = cs "since" then
    let time := toLowerStr (jsSliceFrom term 6)
    match parseSince time with
    | some n => { st with since := st.since ++ [n] }
    | none => st
  else if filt = cs "tag" then { st with tag := st.tag ++ [fieldValue] }
  else if filt = cs "text" then { st with text := st.text ++ [fieldValue] }
  else if filt = cs "uri" then { st with uri := st.uri ++ [fieldValue] }
  else if filt = cs "user" then { st with user := st.user ++ [fieldValue] }
  else { st with any := st.any ++ [term] }

/-- The optional externally supplied focus filter (`{ user?: string }`). -/
structure FocusFilter where
  user : Option Str
deriving DecidableEq

/-- `focusFilters.user ? [focusFilters.user] : []` — JavaScript truthiness:
both an absent `user` and the empty string yield the empty seed. -/
def initUser (f : FocusFilter) : List Str :=
  match f.user with
  | some u => if u.isEmpty then [] else [u]
  | none => []

/-- A term of a facet: the source pushes strings into every facet except
`since`, which receives numbers. -/
inductive FTerm where
  | str (s : Str)
  | num (n : Nat)
deriving DecidableEq

/-- A facet: a combination operator (`"and"` or `"or"`) and its terms. -/
structure Facet where
  operator : Str
  terms : List FTerm
deriving DecidableEq

/-- `generateFacetedFilter`: parse a search query into the fixed seven-key
record of facets, as an insertion-ordered association list mirroring the
returned object literal. -/
def generateFacetedFilter (searchText : Str) (focusFilters : FocusFilter) :
    List (Str × Facet) :=
  let st0 : FState := ⟨[], [], [], [], [], [], initUser focusFilters⟩
  let st := (tokenize searchText).foldl applyTerm st0
  [(cs "any", ⟨cs "and", st.any.map FTerm.str⟩),
   (cs "quote", ⟨cs "and", st.quote.map FTerm.str⟩),
   (cs "since", ⟨cs "and", st.since.map FTerm.num⟩),
   (cs "tag", ⟨cs "and", st.tag.map FTerm.str⟩),
   (cs "text", ⟨cs "and", st.text.map FTerm.str⟩),
   (cs "uri", ⟨cs "or", st.uri.map FTerm.str⟩),
   (cs "user", ⟨cs "or", st.user.map FTerm.str⟩)]

/-- The term list of the facet named `k` (empty when `k` is not a key). -/
def facetTerms (ff : List (Str × Facet)) (k : Str) : List FTerm :=
  match ff.lookup k with
  | some f => f.terms
  | none => []

/-- The operator of the facet named `k`, when present. -/
def facetOp (ff : List (Str × Facet)) (k : Str) : Option Str :=
  (ff.lookup k).map Facet.operator


/-!
### Helper definitions used by the statements below
-/

/-- Look up a key in an insertion-ordered field map (first occurrence). -/
def getField : List (Str × List Str) → Str → Option (List Str)
  | [], _ => none
  | (k', vs) :: rest, k => if k' = k then some vs else getField rest k

/-- The values a token list contributes under output key `k` in `toObject`,
in order of appearance. -/
def flatVals (ts : List Str) (k : Str) : List Str :=
  ts.filterMap (fun t => if (flatEntry t).1 = k then some (flatEntry t).2 else none)

/-- The `user` terms one term contributes inside the facet-builder loop. -/
def userContrib (term : Str) : List Str :=
  let filt := jsSlice term 0 (jsIndexOf term ':')
  if filt = cs "user" then [jsSliceFrom term ((filt.length : Int) + 1)] else []

/-- Whether the facet-builder loop silently drops a term: its sliced filter
is `since` but the value fails the duration grammar. -/
def sinceDropped (term : Str) : Bool :=
  if jsSlice term 0 (jsIndexOf term ':') = cs "since" then
    (parseSince (toLowerStr (jsSliceFrom term 6))).isNone
  else false

/-- The total number of accumulated facet terms in a loop state. -/
def totalFState (st : FState) : Nat :=
  st.any.length + st.quote.length + st.since.length + st.tag.length +
    st.text.length + st.uri.length + st.user.length

/-- The total number of terms over all facets of a result record. -/
def facetTermsCount (ff : List (Str × Facet)) : Nat :=
  (ff.map (fun p => p.2.terms.length)).sum

/-- The number of terms dropped by the `since` grammar over a whole query. -/
def countDropped (searchText : Str) : Nat :=
  ((tokenize searchText).filter sinceDropped).length

/-- The total number of values over all keys of a `toObject` result. -/
def flatCount (obj : List (Str × List Str)) : Nat :=
  (obj.map (fun p => p.2.length)).sum

/-!
### Lemmas about the JavaScript string primitives
-/

theorem jsIndexOf_of_not_mem {l : Str} {c : Char} (h : c ∉ l) :
    jsIndexOf l c = -1 := by
  induction l with
  | nil => rfl
  | cons d ds ih =>
    have hd : d ≠ c := by rintro rfl; exact h (List.mem_cons_self _ _)
    have hds : c ∉ ds := fun hm => h (List.mem_cons_of_mem _ hm)
    simp [jsIndexOf, hd, ih hds]

theorem jsIndexOf_append {pre post : Str} {c : Char} (h : c ∉ pre) :
    jsIndexOf (pre ++ c :: post) c = (pre.length : Int) := by
  induction pre with
  | nil => simp [jsIndexOf]
  | cons d ds ih =>
    have hd : d ≠ c := by rintro rfl; exact h (List.mem_cons_self _ _)
    have hds : c ∉ ds := fun hm => h (List.mem_cons_of_mem _ hm)
    have hr := ih hds
    simp only [List.cons_append, jsIndexOf, hd, if_false, List.append_eq, hr,
      List.length_cons]
    rw [if_neg (by omega)]
    push_cast
    ring

theorem jsSliceIdx_natCast (len n : Nat) : jsSliceIdx len ((n : Nat) : Int) = min n len := by
  unfold jsSliceIdx
  rw [if_neg (by omega)]
  have : ((n : Nat) : Int).toNat = n := by omega
  rw [this]

theorem take_min (l : Str) (n : Nat) : l.take (min n l.length) = l.take n := by
  rcases Nat.le_total n l.length with h | h
  · rw [Nat.min_eq_left h]
  · rw [Nat.min_eq_right h, List.take_length, List.take_of_length_le h]

theorem drop_min (l : Str) (n : Nat) : l.drop (min n l.length) = l.drop n := by
  rcases Nat.le_total n l.length with h | h
  · rw [Nat.min_eq_left h]
  · rw [Nat.min_eq_right h, List.drop_length,
      Eq.symm (List.drop_eq_nil_iff.mpr h)]

theorem jsSlice_zero_natCast (l : Str) (n : Nat) :
    jsSlice l 0 ((n : Nat) : Int) = l.take n := by
  unfold jsSlice
  rw [jsSliceIdx_natCast, take_min]
  have h0 : jsSliceIdx l.length 0 = 0 := by simp [jsSliceIdx]
  rw [h0, List.drop_zero]

theorem jsSliceFrom_natCast (l : Str) (n : Nat) :
    jsSliceFrom l ((n : Nat) : Int) = l.drop n := by
  unfold jsSliceFrom
  rw [jsSliceIdx_natCast, drop_min]

theorem jsSlice_zero_one (l : Str) : jsSlice l 0 1 = l.take 1 := by
  have := jsSlice_zero_natCast l 1
  simpa using this

theorem jsSlice_zero_neg_one (l : Str) : jsSlice l 0 (-1) = l.dropLast := by
  unfold jsSlice
  have hb : jsSliceIdx l.length (-1) = l.length - 1 := by
    unfold jsSliceIdx
    rw [if_pos (by omega)]
    rfl
  have h0 : jsSliceIdx l.length 0 = 0 := by simp [jsSliceIdx]
  rw [hb, h0, List.drop_zero, ← List.dropLast_eq_take]

theorem drop_length_sub_one : ∀ l : Str, l.drop (l.length - 1) = l.getLast?.toList := by
  intro l
  induction l with
  | nil => rfl
  | cons a t ih =>
    cases t with
    | nil => rfl
    | cons b t' =>
      have : (a :: b :: t').length - 1 = ((b :: t').length - 1) + 1 := by
        simp [List.length_cons]
      rw [this, List.drop_succ_cons, ih, List.getLast?_cons_cons]

theorem jsSliceFrom_neg_one (l : Str) : jsSliceFrom l (-1) = l.getLast?.toList := by
  unfold jsSliceFrom
  have hb : jsSliceIdx l.length (-1) = l.length - 1 := by
    unfold jsSliceIdx
    rw [if_pos (by omega)]
    rfl
  rw [hb, drop_length_sub_one]

/-!
### Characterization of `splitTerm`
-/

theorem powerFields_ne_nil : ∀ f ∈ powerFields, f ≠ [] := by decide

theorem splitTerm_colon_of_mem {pre post : Str} (hc : ':' ∉ pre)
    (hm : pre ∈ powerFields) :
    splitTerm (pre ++ ':' :: post) = (some pre, post) := by
  have hne : pre ≠ [] := powerFields_ne_nil pre hm
  have hidx : jsIndexOf (pre ++ ':' :: post) ':' = (pre.length : Int) :=
    jsIndexOf_append hc
  have hfilt : jsSlice (pre ++ ':' :: post) 0 (pre.length : Int) = pre := by
    rw [jsSlice_zero_natCast, List.take_left]
  have hfrom : jsSliceFrom (pre ++ ':' :: post) ((pre.length : Int) + 1) = post := by
    have hcast : (pre.length : Int) + 1 = ((pre.length + 1 : Nat) : Int) := by push_cast; ring
    have hsplit : pre ++ ':' :: post = (pre ++ [':']) ++ post := by simp
    rw [hcast, jsSliceFrom_natCast, hsplit, List.drop_left' (by simp)]
  simp only [splitTerm, hidx, hfilt, hfrom, hne, hm, if_false, if_true]

theorem splitTerm_colon_of_not_mem {pre post : Str} (hc : ':' ∉ pre)
    (hm : pre ∉ powerFields) :
    splitTerm (pre ++ ':' :: post) = (none, pre ++ ':' :: post) := by
  have hidx : jsIndexOf (pre ++ ':' :: post) ':' = (pre.length : Int) :=
    jsIndexOf_append hc
  have hfilt : jsSlice (pre ++ ':' :: post) 0 (pre.length : Int) = pre := by
    rw [jsSlice_zero_natCast, List.take_left]
  by_cases hne : pre = []
  · subst hne
    have h0 : jsIndexOf (':' :: post) ':' = 0 := by simp [jsIndexOf]
    simp [splitTerm, h0, jsSlice, jsSliceIdx]
  · simp [splitTerm, hidx, hfilt, hne, hm]

theorem splitTerm_no_colon_of_mem {t : Str} (hc : ':' ∉ t)
    (hm : t.dropLast ∈ powerFields) :
    splitTerm t = (some t.dropLast, []) := by
  have hne : t.dropLast ≠ [] := powerFields_ne_nil _ hm
  have htne : t ≠ [] := by rintro rfl; exact hne rfl
  have hlen : 1 ≤ t.length := List.length_pos.mpr htne
  have hidx : jsIndexOf t ':' = -1 := jsIndexOf_of_not_mem hc
  have hfilt : jsSlice t 0 (-1) = t.dropLast := jsSlice_zero_neg_one t
  have hfrom : jsSliceFrom t (((t.length - 1 : Nat) : Int) + 1) = [] := by
    have hoc : ((t.length - 1 : Nat) : Int) + 1 = ((t.length : Nat) : Int) := by omega
    rw [hoc, jsSliceFrom_natCast, List.drop_length]
  simp [splitTerm, hidx, hfilt, hfrom, hne, hm]

theorem splitTerm_no_colon_of_not_mem {t : Str} (hc : ':' ∉ t)
    (hm : t.dropLast ∉ powerFields) :
    splitTerm t = (none, t) := by
  have hidx : jsIndexOf t ':' = -1 := jsIndexOf_of_not_mem hc
  have hfilt : jsSlice t 0 (-1) = t.dropLast := jsSlice_zero_neg_one t
  by_cases hne : t.dropLast = []
  · simp [splitTerm, hidx, hfilt, hne]
  · simp [splitTerm, hidx, hfilt, hne, hm]

/-!
### Characterization of `removeSurroundingQuotes`
-/

theorem rsq_nil : removeSurroundingQuotes [] = [] := by decide

theorem rsq_of_head_not_quote {c : Char} {l : Str} (h : isQuoteChar c = false) :
    removeSurroundingQuotes (c :: l) = c :: l := by
  have hc : ¬(c = '"') ∧ ¬(c = '\'') := by
    constructor <;> (rintro rfl; simp [isQuoteChar] at h)
  have hstart : jsSlice (c :: l) 0 1 = [c] := by
    rw [jsSlice_zero_one]; rfl
  rw [removeSurroundingQuotes]
  simp only [hstart]
  rw [if_neg]
  rintro ⟨h1 | h1, -⟩
  · exact hc.1 (by injection h1)
  · exact hc.2 (by injection h1)

theorem drop_one_dropLast (t : Str) : t.dropLast.drop 1 = (t.drop 1).dropLast := by
  cases t with
  | nil => rfl
  | cons a t' =>
    cases t' with
    | nil => rfl
    | cons b t'' =>
      simp only [List.drop_succ_cons, List.drop_zero]
      rw [List.dropLast_cons₂]
      simp only [List.drop_succ_cons, List.drop_zero]

theorem rsq_strip {c : Char} {l : Str} (hq : isQuoteChar c = true)
    (hlast : (c :: l).getLast? = some c) :
    removeSurroundingQuotes (c :: l) = ((c :: l).drop 1).dropLast := by
  have hstart : jsSlice (c :: l) 0 1 = [c] := by
    rw [jsSlice_zero_one]; rfl
  have hstop : jsSliceFrom (c :: l) (-1) = [c] := by
    rw [jsSliceFrom_neg_one, hlast]; rfl
  have hcond : ([c] = ['"'] ∨ [c] = ['\'']) := by
    rcases (by simpa [isQuoteChar] using hq : c = '"' ∨ c = '\'') with h | h <;>
      simp [h]
  have hres : jsSlice (c :: l) 1 (((c :: l).length : Int) - 1) =
      ((c :: l).dropLast).drop 1 := by
    unfold jsSlice
    have hb : jsSliceIdx (c :: l).length (((c :: l).length : Int) - 1) =
        (c :: l).length - 1 := by
      unfold jsSliceIdx
      rw [if_neg (by simp)]
      have : (((c :: l).length : Int) - 1).toNat = (c :: l).length - 1 := by omega
      rw [this]
      exact Nat.min_eq_left (by omega)
    have ha : jsSliceIdx (c :: l).length 1 = 1 := by
      unfold jsSliceIdx
      rw [if_neg (by omega)]
      simp
    rw [hb, ha, ← List.dropLast_eq_take]
  rw [removeSurroundingQuotes]
  simp only [hstart, hstop]
  rw [if_pos ⟨hcond, trivial⟩, hres, drop_one_dropLast]

theorem rsq_of_not_matching {t : Str}
    (h : ∀ c, t.head? = some c → isQuoteChar c = true → t.getLast? = some c → False) :
    removeSurroundingQuotes t = t := by
  cases t with
  | nil => exact rsq_nil
  | cons c l =>
    by_cases hq : isQuoteChar c = true
    · have hlast : (c :: l).getLast? ≠ some c := fun hl => h c rfl hq hl
      have hstart : jsSlice (c :: l) 0 1 = [c] := by
        rw [jsSlice_zero_one]; rfl
      have hstop : jsSliceFrom (c :: l) (-1) = (c :: l).getLast?.toList :=
        jsSliceFrom_neg_one _
      rw [removeSurroundingQuotes]
      simp only [hstart, hstop]
      rw [if_neg]
      rintro ⟨-, h2⟩
      rcases hl : (c :: l).getLast? with - | d
      · simp [hl] at h2
      · rw [hl] at h2
        simp only [Option.toList_some] at h2
        have : c = d := by injection h2
        exact hlast (by rw [hl, this])
    · exact rsq_of_head_not_quote (by simpa using hq)

/-!
### Structure of `tokenize` output
-/

theorem splitTerm_none_eq {t : Str} (h : (splitTerm t).1 = none) :
    splitTerm t = (none, t) := by
  by_cases h1 : jsSlice t 0 (jsIndexOf t ':') = []
  · simp [splitTerm, h1]
  · by_cases h2 : jsSlice t 0 (jsIndexOf t ':') ∈ powerFields
    · simp [splitTerm, h1, h2] at h
    · simp [splitTerm, h1, h2]

theorem stripFieldValueQuotes_cases (t : Str) :
    (∃ f d, splitTerm t = (some f, d) ∧
       stripFieldValueQuotes t = f ++ ':' :: removeSurroundingQuotes d) ∨
    (splitTerm t = (none, t) ∧ stripFieldValueQuotes t = t) := by
  rcases hsp : (splitTerm t).1 with - | f
  · have hst : splitTerm t = (none, t) := splitTerm_none_eq hsp
    exact Or.inr ⟨hst, by simp [stripFieldValueQuotes, hsp]⟩
  · have heq : splitTerm t = (some f, (splitTerm t).2) := by
      rw [← hsp]
    exact Or.inl ⟨f, (splitTerm t).2, heq, by
      simp [stripFieldValueQuotes, hsp]⟩

theorem mem_tokenize {s t : Str} (h : t ∈ tokenize s) :
    t ≠ [] ∧ (':' ∈ t ∨ splitTerm t = (none, t)) := by
  unfold tokenize at h
  rcases List.mem_map.mp h with ⟨t', ht', rfl⟩
  rcases List.mem_filter.mp ht' with ⟨-, hb⟩
  have hne' : t' ≠ [] := by simpa using hb
  rcases stripFieldValueQuotes_cases t' with ⟨f, d, hsp, hfix⟩ | ⟨hsp, hfix⟩
  · rw [hfix]
    constructor
    · simp
    · left; simp
  · rw [hfix]
    exact ⟨hne', Or.inr hsp⟩

/-!
### Accumulation lemmas for `toObject`
-/

theorem backendFilter_any : backendFilter (cs "any") = cs "any" := by decide

theorem foldl_flatStep_any (ts : List Str) :
    ∀ acc : List Str, (∀ t ∈ ts, flatEntry t = (cs "any", t)) →
      ts.foldl flatStep [(cs "any", acc)] = [(cs "any", acc ++ ts)] := by
  induction ts with
  | nil => intro acc _; simp
  | cons t ts ih =>
    intro acc h
    have ht := h t (List.mem_cons_self _ _)
    have hstep : flatStep [(cs "any", acc)] t = [(cs "any", acc ++ [t])] := by
      simp [flatStep, ht, pushField]
    rw [List.foldl_cons, hstep, ih (acc ++ [t]) (fun u hu => h u (List.mem_cons_of_mem _ hu))]
    simp

theorem getField_pushField (obj : List (Str × List Str)) (k k' : Str) (v : Str) :
    getField (pushField obj k' v) k =
      if k = k' then some (((getField obj k).getD []) ++ [v])
      else getField obj k := by
  induction obj with
  | nil =>
    by_cases h : k = k'
    · subst h; simp [pushField, getField]
    · have h' : ¬(k' = k) := fun e => h e.symm
      simp [pushField, getField, h, h']
  | cons p rest ih =>
    obtain ⟨k₀, vs₀⟩ := p
    by_cases h0 : k₀ = k'
    · subst h0
      by_cases hk : k = k₀
      · subst hk; simp [pushField, getField]
      · have hk' : ¬(k₀ = k) := fun e => hk e.symm
        simp [pushField, getField, hk, hk']
    · by_cases hk : k₀ = k
      · have hkk' : ¬(k = k') := fun e => h0 (hk.trans e)
        simp [pushField, getField, h0, hk, hkk']
      · simp [pushField, getField, h0, hk, ih]

theorem flatVals_cons (t : Str) (ts : List Str) (k : Str) :
    flatVals (t :: ts) k =
      if (flatEntry t).1 = k then (flatEntry t).2 :: flatVals ts k
      else flatVals ts k := by
  by_cases hc : (flatEntry t).1 = k
  · simp [flatVals, List.filterMap_cons, hc]
  · simp [flatVals, List.filterMap_cons, hc]

theorem getField_foldl_flatStep (ts : List Str) :
    ∀ (obj : List (Str × List Str)) (k : Str),
      ((getField (ts.foldl flatStep obj) k).getD [] =
        (getField obj k).getD [] ++ flatVals ts k) ∧
      (getField (ts.foldl flatStep obj) k = none ↔
        getField obj k = none ∧ flatVals ts k = []) := by
  induction ts with
  | nil => intro obj k; simp [flatVals]
  | cons t ts ih =>
    intro obj k
    have hstep : getField (flatStep obj t) k =
        if k = (flatEntry t).1 then
          some (((getField obj k).getD []) ++ [(flatEntry t).2])
        else getField obj k :=
      getField_pushField obj k (flatEntry t).1 (flatEntry t).2
    rcases ih (flatStep obj t) k with ⟨ih1, ih2⟩
    rw [List.foldl_cons] at *
    by_cases hk : k = (flatEntry t).1
    · rw [if_pos hk] at hstep
      constructor
      · rw [ih1, hstep, flatVals_cons, if_pos hk.symm]
        simp
      · rw [ih2, hstep, flatVals_cons, if_pos hk.symm]
        simp
    · rw [if_neg hk] at hstep
      have hk' : ¬((flatEntry t).1 = k) := fun e => hk e.symm
      constructor
      · rw [ih1, hstep, flatVals_cons, if_neg hk']
      · rw [ih2, hstep, flatVals_cons, if_neg hk']

/-!
### The facet-builder loop body
-/

theorem applyTerm_since (st : FState) (v : Str) :
    applyTerm st (cs "since:" ++ v) =
      match parseSince (toLowerStr v) with
      | some n => { st with since := st.since ++ [n] }
      | none => st := by
  show applyTerm st (cs "since" ++ ':' :: v) = _
  have hidx : jsIndexOf (cs "since" ++ ':' :: v) ':' = ((cs "since").length : Int) :=
    jsIndexOf_append (by decide)
  have hfilt : jsSlice (cs "since" ++ ':' :: v) 0 ((cs "since").length : Int) =
      cs "since" := by
    rw [jsSlice_zero_natCast, List.take_left]
  have htime : jsSliceFrom (cs "since" ++ ':' :: v) 6 = v := by
    have h6 : (6 : Int) = ((6 : Nat) : Int) := rfl
    have hshape : cs "since" ++ ':' :: v = cs "since:" ++ v := rfl
    rw [hshape, h6, jsSliceFrom_natCast, List.drop_left' (by decide)]
  simp only [applyTerm, hidx, hfilt, htime]
  rw [if_neg (show ¬(cs "since" = cs "quote") by decide)]
  simp

/-- The `user` and term-count effect of one facet-builder loop iteration. -/
theorem applyTerm_user_total (st : FState) (t : Str) :
    (applyTerm st t).user = st.user ++ userContrib t ∧
    totalFState (applyTerm st t) =
      totalFState st + (if sinceDropped t = true then 0 else 1) := by
  by_cases h1 : jsSlice t 0 (jsIndexOf t ':') = cs "quote"
  · have hd : sinceDropped t = false := by
      simp [sinceDropped, h1, show ¬(cs "quote" = cs "since") by decide]
    simp [applyTerm, userContrib, totalFState, h1, hd,
      show ¬(cs "quote" = cs "user") by decide]
    omega
  · by_cases h2 : jsSlice t 0 (jsIndexOf t ':') = cs "since"
    · rcases hp : parseSince (toLowerStr (jsSliceFrom t 6)) with - | n
      · have hd : sinceDropped t = true := by
          simp [sinceDropped, h2, hp]
        simp [applyTerm, userContrib, totalFState, h2, hp, hd,
          show ¬(cs "since" = cs "quote") by decide,
          show ¬(cs "since" = cs "user") by decide]
      · have hd : sinceDropped t = false := by
          simp [sinceDropped, h2, hp]
        simp [applyTerm, userContrib, totalFState, h2, hp, hd,
          show ¬(cs "since" = cs "quote") by decide,
          show ¬(cs "since" = cs "user") by decide]
        omega
    · by_cases h3 : jsSlice t 0 (jsIndexOf t ':') = cs "tag"
      · have hd : sinceDropped t = false := by
          simp [sinceDropped, h3, show ¬(cs "tag" = cs "since") by decide]
        simp [applyTerm, userContrib, totalFState, h3, hd,
          show ¬(cs "tag" = cs "quote") by decide,
          show ¬(cs "tag" = cs "since") by decide,
          show ¬(cs "tag" = cs "user") by decide]
        omega
      · by_cases h4 : jsSlice t 0 (jsIndexOf t ':') = cs "text"
        · have hd : sinceDropped t = false := by
            simp [sinceDropped, h4, show ¬(cs "text" = cs "since") by decide]
          simp [applyTerm, userContrib, totalFState, h4, hd,
            show ¬(cs "text" = cs "quote") by decide,
            show ¬(cs "text" = cs "since") by decide,
            show ¬(cs "text" = cs "tag") by decide,
            show ¬(cs "text" = cs "user") by decide]
          omega
        · by_cases h5 : jsSlice t 0 (jsIndexOf t ':') = cs "uri"
          · have hd : sinceDropped t = false := by
              simp [sinceDropped, h5, show ¬(cs "uri" = cs "since") by decide]
            simp [applyTerm, userContrib, totalFState, h5, hd,
              show ¬(cs "uri" = cs "quote") by decide,
              show ¬(cs "uri" = cs "since") by decide,
              show ¬(cs "uri" = cs "tag") by decide,
              show ¬(cs "uri" = cs "text") by decide,
              show ¬(cs "uri" = cs "user") by decide]
            omega
          · by_cases h6 : jsSlice t 0 (jsIndexOf t ':') = cs "user"
            · have hd : sinceDropped t = false := by
                simp [sinceDropped, h6, show ¬(cs "user" = cs "since") by decide]
              simp [applyTerm, userContrib, totalFState, h6, hd,
                show ¬(cs "user" = cs "quote") by decide,
                show ¬(cs "user" = cs "since") by decide,
                show ¬(cs "user" = cs "tag") by decide,
                show ¬(cs "user" = cs "text") by decide,
                show ¬(cs "user" = cs "uri") by decide]
              omega
            · have hd : sinceDropped t = false := by
                simp [sinceDropped, h2]
              simp [applyTerm, userContrib, totalFState, h1, h2, h3, h4, h5, h6, hd]
              omega

theorem foldl_applyTerm_user (ts : List Str) :
    ∀ st : FState, (ts.foldl applyTerm st).user =
      st.user ++ (ts.map userContrib).flatten := by
  induction ts with
  | nil => intro st; simp
  | cons t ts ih =>
    intro st
    rw [List.foldl_cons, ih, (applyTerm_user_total st t).1]
    simp

theorem foldl_applyTerm_total (ts : List Str) :
    ∀ st : FState, totalFState (ts.foldl applyTerm st) +
      (ts.filter sinceDropped).length = totalFState st + ts.length := by
  induction ts with
  | nil => intro st; simp
  | cons t ts ih =>
    intro st
    rw [List.foldl_cons]
    have h := (applyTerm_user_total st t).2
    have h2 := ih (applyTerm st t)
    by_cases hd : sinceDropped t = true
    · rw [if_pos hd] at h
      rw [List.filter_cons_of_pos (by simpa using hd)]
      simp only [List.length_cons]
      omega
    · rw [if_neg hd] at h
      rw [List.filter_cons_of_neg (by simpa using hd)]
      simp only [List.length_cons]
      omega

/-!
### The `since` duration grammar
-/

theorem takeWhile_digits_append {d u : Str} (hd : d.all Char.isDigit = true)
    (hu : u = [] ∨ (u ≠ [] ∧ u.headI.isDigit = false)) :
    (d ++ u).takeWhile Char.isDigit = d ∧ (d ++ u).dropWhile Char.isDigit = u := by
  induction d with
  | nil =>
    rcases hu with rfl | ⟨hne, hh⟩
    · simp
    · cases u with
      | nil => exact absurd rfl hne
      | cons c cs' =>
        simp only [List.headI] at hh
        constructor
        · simp [List.takeWhile_cons, hh]
        · simp [List.dropWhile_cons, hh]
  | cons a d' ih =>
    have hsplit : (a.isDigit = true) ∧ d'.all Char.isDigit = true := by
      simpa [List.all_cons, Bool.and_eq_true] using hd
    rcases ih hsplit.2 with ⟨ih1, ih2⟩
    constructor
    · simp [List.takeWhile_cons, hsplit.1, ih1]
    · simp [List.dropWhile_cons, hsplit.1, ih2]

theorem lookup_mem_fst {l : List (Str × Nat)} {k : Str} {v : Nat}
    (h : l.lookup k = some v) : k ∈ l.map Prod.fst := by
  induction l with
  | nil => simp [List.lookup] at h
  | cons p rest ih =>
    obtain ⟨k', v'⟩ := p
    simp only [List.lookup] at h
    by_cases hk : (k == k') = true
    · have : k = k' := eq_of_beq hk
      simp [this]
    · simp only [Bool.not_eq_true] at hk
      rw [hk] at h
      exact List.mem_cons_of_mem _ (ih h)

theorem unit_keys_fact :
    ∀ u ∈ secondsPerUnit.map Prod.fst, u ≠ [] ∧ u.headI.isDigit = false := by
  decide

theorem parseSince_digits {d : Str} (hne : d ≠ [])
    (hdig : d.all Char.isDigit = true) :
    parseSince d = some (digitsToNat d * 1) := by
  rcases takeWhile_digits_append (u := []) hdig (Or.inl rfl) with ⟨h1, h2⟩
  simp only [List.append_nil] at h1 h2
  simp [parseSince, h1, h2, hne]

theorem parseSince_digits_unit {d u : Str} {m : Nat} (hne : d ≠ [])
    (hdig : d.all Char.isDigit = true)
    (hlk : secondsPerUnit.lookup u = some m) :
    parseSince (d ++ u) = some (digitsToNat d * m) := by
  have hufact := unit_keys_fact u (lookup_mem_fst hlk)
  rcases takeWhile_digits_append hdig (Or.inr hufact) with ⟨h1, h2⟩
  simp [parseSince, h1, h2, hne, hufact.1, hlk]

theorem parseSince_eq_none {t : Str}
    (h : ∀ d u, t = d ++ u → d ≠ [] → d.all Char.isDigit = true →
      (u = [] ∨ u ∈ secondsPerUnit.map Prod.fst) → False) :
    parseSince t = none := by
  by_cases hd : (t.takeWhile Char.isDigit).isEmpty = true
  · simp [parseSince, hd]
  · have hdne : t.takeWhile Char.isDigit ≠ [] := by
      simpa [List.isEmpty_iff] using hd
    have hsplit : t = t.takeWhile Char.isDigit ++ t.dropWhile Char.isDigit :=
      (List.takeWhile_append_dropWhile Char.isDigit t).symm
    have hdig : (t.takeWhile Char.isDigit).all Char.isDigit = true := by
      rw [List.all_eq_true]
      intro x hx
      exact List.mem_takeWhile_imp hx
    by_cases hr : (t.dropWhile Char.isDigit).isEmpty = true
    · exact absurd (h _ _ hsplit hdne hdig
        (Or.inl (by simpa [List.isEmpty_iff] using hr))) (fun hf => hf)
    · rcases hlk : secondsPerUnit.lookup (t.dropWhile Char.isDigit) with - | m
      · simp [parseSince, hd, hr, hlk]
      · exact absurd (h _ _ hsplit hdne hdig
          (Or.inr (lookup_mem_fst hlk))) (fun hf => hf)

/-!
### Tokenizing a single bare word
-/

theorem plainChar_split {c : Char} (h : plainChar c = true) :
    jsWhitespace c = false ∧ isQuoteChar c = false := by
  simpa [plainChar, Bool.and_eq_true] using h

theorem matchUnit_all_plain {c : Char} {l : Str}
    (h : ∀ x ∈ c :: l, plainChar x = true) :
    matchUnit (c :: l) = some (c :: l, []) := by
  rcases plainChar_split (h c (List.mem_cons_self _ _)) with ⟨hw, hq⟩
  have htw : l.takeWhile plainChar = l :=
    List.takeWhile_eq_self_iff.mpr (fun x hx => h x (List.mem_cons_of_mem _ hx))
  have hdw : l.dropWhile plainChar = [] :=
    List.dropWhile_eq_nil_iff.mpr (fun x hx => h x (List.mem_cons_of_mem _ hx))
  simp [matchUnit, hw, hq, htw, hdw]

theorem munitsF_nil (fuel : Nat) : munitsF fuel [] = ([], []) := by
  cases fuel <;> simp [munitsF, matchUnit]

theorem tokenMatchesF_nil (fuel : Nat) : tokenMatchesF fuel [] = [] := by
  cases fuel <;> simp [tokenMatchesF]

theorem tokenMatches_all_plain {t : Str} (hne : t ≠ [])
    (h : ∀ x ∈ t, plainChar x = true) :
    tokenMatches t = [t] := by
  obtain ⟨c, l, rfl⟩ := List.exists_cons_of_ne_nil hne
  have hmu : matchUnit (c :: l) = some (c :: l, []) := matchUnit_all_plain h
  have hmun : munitsF (c :: l).length (c :: l) = (c :: l, []) := by
    rw [show (c :: l).length = l.length + 1 from rfl]
    simp [munitsF, hmu, munitsF_nil]
  show tokenMatchesF (c :: l).length (c :: l) = [c :: l]
  rw [show (c :: l).length = l.length + 1 from rfl]
  simp only [tokenMatchesF, hmu]
  rw [hmun]
  simp [tokenMatchesF_nil]

theorem tokenize_bare {t : Str} (hne : t ≠ [])
    (hplain : ∀ x ∈ t, plainChar x = true) (hcolon : ':' ∉ t)
    (hfield : t.dropLast ∉ powerFields) :
    tokenize t = [t] := by
  have htm := tokenMatches_all_plain hne hplain
  have hrsq : removeSurroundingQuotes t = t := by
    obtain ⟨c, l, rfl⟩ := List.exists_cons_of_ne_nil hne
    exact rsq_of_head_not_quote
      (plainChar_split (hplain c (List.mem_cons_self _ _))).2
  have hsfq : stripFieldValueQuotes t = t := by
    simp [stripFieldValueQuotes, splitTerm_no_colon_of_not_mem hcolon hfield]
  unfold tokenize
  rw [htm]
  simp [hrsq, hne, hsfq]

/-!
### Remaining helper lemmas
-/

theorem powerFields_no_colon : ∀ f ∈ powerFields, ':' ∉ f := by decide

theorem flatCount_pushField (obj : List (Str × List Str)) (k v : Str) :
    flatCount (pushField obj k v) = flatCount obj + 1 := by
  induction obj with
  | nil => simp [pushField, flatCount]
  | cons p rest ih =>
    obtain ⟨k0, vs⟩ := p
    by_cases h : k0 = k
    · simp [pushField, h, flatCount]
      omega
    · simp only [pushField, if_neg h]
      simp only [flatCount, List.map_cons, List.sum_cons] at ih ⊢
      omega

theorem flatCount_foldl (ts : List Str) :
    ∀ obj, flatCount (ts.foldl flatStep obj) = flatCount obj + ts.length := by
  induction ts with
  | nil => intro obj; simp
  | cons t ts ih =>
    intro obj
    rw [List.foldl_cons, ih]
    have : flatCount (flatStep obj t) = flatCount obj + 1 :=
      flatCount_pushField obj (flatEntry t).1 (flatEntry t).2
    rw [this]
    simp only [List.length_cons]
    omega

/-!
### The claims
-/

/-- C1 counterexample: the claim states that a token containing no `:` is
returned whole with a null field, but `splitTerm` on the colon-free token
`users` returns field `user` with empty data (the `indexOf`-returns-`-1`
slicing artifact). -/
theorem c1_counterexample :
    splitTerm (cs "users") = (some (cs "user"), []) ∧
    splitTerm (cs "users") ≠ (none, cs "users") := by
  constructor
  · decide
  · decide

/-- C1 (amended): for a token containing a `:`, `splitTerm` returns the
prefix before the first `:` as field and the remainder as value when that
prefix is a recognized field name, and the whole token verbatim with a null
field otherwise (including the empty-prefix case); for a colon-free token,
the candidate prefix is the token with its final character removed:
when that is a recognized field name the result is that field with an empty
value, otherwise the whole token with a null field. -/
theorem c1_splitTerm_amended (t : Str) :
    (':' ∉ t → t.dropLast ∉ powerFields → splitTerm t = (none, t)) ∧
    (':' ∉ t → t.dropLast ∈ powerFields → splitTerm t = (some t.dropLast, [])) ∧
    (∀ pre post, t = pre ++ ':' :: post → ':' ∉ pre → pre ∈ powerFields →
      splitTerm t = (some pre, post)) ∧
    (∀ pre post, t = pre ++ ':' :: post → ':' ∉ pre → pre ∉ powerFields →
      splitTerm t = (none, t)) := by
  refine ⟨fun hc hm => splitTerm_no_colon_of_not_mem hc hm,
          fun hc hm => splitTerm_no_colon_of_mem hc hm,
          fun pre post heq hc hm => ?_,
          fun pre post heq hc hm => ?_⟩
  · rw [heq]
    exact splitTerm_colon_of_mem hc hm
  · rw [heq]
    exact splitTerm_colon_of_not_mem hc hm

/-- C1 witness: the amended characterization evaluated on the spec's
examples and on the quirk input. -/
theorem c1_witness :
    splitTerm (cs "user:johndoe") = (some (cs "user"), cs "johndoe") ∧
    splitTerm (cs "example:text") = (none, cs "example:text") ∧
    splitTerm (cs "users") = (some (cs "user"), []) := by
  refine ⟨?_, ?_, ?_⟩
  · exact (c1_splitTerm_amended (cs "user:johndoe")).2.2.1 (cs "user")
      (cs "johndoe") (by decide) (by decide) (by decide)
  · exact (c1_splitTerm_amended (cs "example:text")).2.2.2 (cs "example")
      (cs "text") (by decide) (by decide) (by decide)
  · have h := (c1_splitTerm_amended (cs "users")).2.1 (by decide) (by decide)
    simpa using h

/-- C2 counterexample: `users` contains no colon, yet `toObject` maps it to
the `user` key with an empty value rather than to `any`; and for the empty
input the result is the empty mapping, not a mapping with key `any`. -/
theorem c2_counterexample :
    toObject (cs "users") = [(cs "user", [([] : Str)])] ∧
    toObject (cs "users") ≠ [(cs "any", [cs "users"])] ∧
    toObject (cs "") = [] := by
  refine ⟨by decide, by decide, by decide⟩

/-- C2 (amended): for an input with no colons whose tokenization produces at
least one token and only colon-free tokens (which excludes tokens that are a
recognized field name plus exactly one character, rewritten by the slicing
artifact), `toObject` returns exactly the mapping `any ↦ tokens` in order of
appearance. -/
theorem c2_toObject_amended (s : Str) (_hcolon : ':' ∉ s)
    (htok : ∀ t ∈ tokenize s, ':' ∉ t) (hne : tokenize s ≠ []) :
    toObject s = [(cs "any", tokenize s)] := by
  have hall : ∀ t ∈ tokenize s, flatEntry t = (cs "any", t) := by
    intro t ht
    rcases mem_tokenize ht with ⟨-, hcol | hsp⟩
    · exact absurd hcol (htok t ht)
    · simp [flatEntry, hsp, backendFilter_any]
  obtain ⟨t, ts, heq⟩ := List.exists_cons_of_ne_nil hne
  unfold toObject
  rw [heq, List.foldl_cons]
  have ht := hall t (heq.symm ▸ List.mem_cons_self t ts)
  have hstep : flatStep [] t = [(cs "any", [t])] := by
    simp [flatStep, ht, pushField]
  rw [hstep,
    foldl_flatStep_any ts [t]
      (fun u hu => hall u (heq.symm ▸ List.mem_cons_of_mem t hu))]
  simp

/-- C2 witness: the amended statement evaluated at `foo bar`. -/
theorem c2_witness : toObject (cs "foo bar") = [(cs "any", tokenize (cs "foo bar"))] :=
  c2_toObject_amended (cs "foo bar") (by decide) (by decide) (by decide)

/-- C7 counterexample: the colon-free bare token `users` does not
re-tokenize to itself; the slicing artifact rewrites it to `user:`. -/
theorem c7_counterexample :
    tokenize (cs "users") = [cs "user:"] ∧ tokenize (cs "users") ≠ [cs "users"] := by
  constructor
  · decide
  · decide

/-- C7 (amended): a single bare token (non-empty, containing no whitespace,
no quote characters and no colon) tokenizes to exactly itself, provided it
is not a recognized field name followed by exactly one character (i.e. the
token minus its last character is not in the field vocabulary). -/
theorem c7_tokenize_bare_amended (t : Str) (hne : t ≠ [])
    (hplain : ∀ x ∈ t, plainChar x = true) (hcolon : ':' ∉ t)
    (hfield : t.dropLast ∉ powerFields) :
    tokenize t = [t] :=
  tokenize_bare hne hplain hcolon hfield

/-- C7 witness: the amended statement evaluated at `hello`. -/
theorem c7_witness : tokenize (cs "hello") = [cs "hello"] :=
  c7_tokenize_bare_amended (cs "hello") (by decide) (by decide) (by decide)
    (by decide)

/-- C10: a focus filter carrying the empty string as `user` behaves exactly
like an absent focus user: JavaScript truthiness makes `''` falsy, so the
`user` facet is not seeded. -/
theorem c10_empty_focus_user (s : Str) :
    generateFacetedFilter s ⟨some []⟩ = generateFacetedFilter s ⟨none⟩ := rfl

/-- C3: the tokenizer treats quoted spans as atomic (the two spec examples),
strips one pair of surrounding quotes exactly when the first and last
characters are the same quote character and leaves other runs untouched,
drops empty tokens, and re-strips one pair of matching quotes from the value
portion of a recognized `field:value` token. -/
theorem c3_tokenize_quotes :
    tokenize (cs "tag:\"foo bar\" baz") = [cs "tag:foo bar", cs "baz"] ∧
    tokenize (cs "'single quoted' unquoted") = [cs "single quoted", cs "unquoted"] ∧
    (∀ (t : Str) (c : Char), t.head? = some c → isQuoteChar c = true →
      t.getLast? = some c →
      removeSurroundingQuotes t = (t.drop 1).dropLast) ∧
    (∀ t : Str, (∀ c, t.head? = some c → isQuoteChar c = true →
      t.getLast? = some c → False) → removeSurroundingQuotes t = t) ∧
    (∀ s t : Str, t ∈ tokenize s → t ≠ []) ∧
    (∀ f v : Str, f ∈ powerFields →
      stripFieldValueQuotes (f ++ ':' :: v) =
        f ++ ':' :: removeSurroundingQuotes v) := by
  refine ⟨by decide, by decide, ?_, ?_, ?_, ?_⟩
  · intro t c hh hq hl
    cases t with
    | nil => exact Option.noConfusion hh
    | cons a l =>
      have ha : a = c := by
        have : some a = some c := hh
        injection this
      subst ha
      exact rsq_strip hq hl
  · intro t h
    exact rsq_of_not_matching h
  · intro s t ht
    exact (mem_tokenize ht).1
  · intro f v hf
    have hcol : ':' ∉ f := powerFields_no_colon f hf
    simp [stripFieldValueQuotes, splitTerm_colon_of_mem hcol hf]

/-- C3 witness: the quote-stripping characterization applied at concrete
inputs. -/
theorem c3_witness :
    removeSurroundingQuotes (cs "'ab'") = ((cs "'ab'").drop 1).dropLast ∧
    stripFieldValueQuotes (cs "tag" ++ ':' :: cs "\"x y\"") =
      cs "tag" ++ ':' :: removeSurroundingQuotes (cs "\"x y\"") := by
  constructor
  · exact c3_tokenize_quotes.2.2.1 (cs "'ab'") '\'' (by decide) (by decide)
      (by decide)
  · exact c3_tokenize_quotes.2.2.2.2.2 (cs "tag") (cs "\"x y\"") (by decide)

/-- C4 counterexample: the claim's example asserts that `since:3days` yields
`since.terms = [259200]`, but `3days` does not match
`^(\d+)(sec|min|hour|day|week|month|year)?$` (the unit is `day`, not
`days`), so the term is silently dropped. -/
theorem c4_counterexample :
    facetTerms (generateFacetedFilter (cs "since:3days") ⟨none⟩) (cs "since") = [] ∧
    facetTerms (generateFacetedFilter (cs "since:3days") ⟨none⟩) (cs "since") ≠
      [FTerm.num 259200] := by
  constructor
  · decide
  · decide

/-- C4 (amended): a term `since:v` is accepted by the facet-builder loop
exactly when the lower-cased value decomposes as a nonempty digit string
optionally followed by one unit name (`sec`, `min`, `hour`, `day`, `week`,
`month`, `year`); the number times the unit multiplier (default 1) is
appended to the `since` terms, and a non-matching value is silently
dropped; e.g. `since:3day` yields `[259200]`, case-insensitively, while
`since:3days` and `since:badvalue` yield `[]`. -/
theorem c4_since_grammar :
    (∀ (st : FState) (v d : Str), toLowerStr v = d → d ≠ [] →
      d.all Char.isDigit = true →
      applyTerm st (cs "since:" ++ v) =
        { st with since := st.since ++ [digitsToNat d * 1] }) ∧
    (∀ (st : FState) (v d u : Str) (m : Nat), toLowerStr v = d ++ u →
      d ≠ [] → d.all Char.isDigit = true →
      secondsPerUnit.lookup u = some m →
      applyTerm st (cs "since:" ++ v) =
        { st with since := st.since ++ [digitsToNat d * m] }) ∧
    (∀ (st : FState) (v : Str),
      (∀ d u, toLowerStr v = d ++ u → d ≠ [] → d.all Char.isDigit = true →
        (u = [] ∨ u ∈ secondsPerUnit.map Prod.fst) → False) →
      applyTerm st (cs "since:" ++ v) = st) ∧
    facetTerms (generateFacetedFilter (cs "since:3day") ⟨none⟩) (cs "since") =
      [FTerm.num 259200] ∧
    facetTerms (generateFacetedFilter (cs "since:3DAY") ⟨none⟩) (cs "since") =
      [FTerm.num 259200] ∧
    facetTerms (generateFacetedFilter (cs "since:badvalue") ⟨none⟩) (cs "since") = [] ∧
    facetTerms (generateFacetedFilter (cs "since:3days") ⟨none⟩) (cs "since") = [] := by
  refine ⟨?_, ?_, ?_, by decide, by decide, by decide, by decide⟩
  · intro st v d hv hne hdig
    rw [applyTerm_since, hv, parseSince_digits hne hdig]
  · intro st v d u m hv hne hdig hlk
    rw [applyTerm_since, hv, parseSince_digits_unit hne hdig hlk]
  · intro st v h
    rw [applyTerm_since, parseSince_eq_none h]

/-- C4 witness: the grammar characterization applied at `3day`, `7` and
`badvalue`. -/
theorem c4_witness :
    applyTerm ⟨[], [], [], [], [], [], []⟩ (cs "since:" ++ cs "3day") =
      { (⟨[], [], [], [], [], [], []⟩ : FState) with
        since := [digitsToNat (cs "3") * 86400] } ∧
    applyTerm ⟨[], [], [], [], [], [], []⟩ (cs "since:" ++ cs "7") =
      { (⟨[], [], [], [], [], [], []⟩ : FState) with
        since := [digitsToNat (cs "7") * 1] } ∧
    applyTerm ⟨[], [], [], [], [], [], []⟩ (cs "since:" ++ cs "badvalue") =
      (⟨[], [], [], [], [], [], []⟩ : FState) := by
  refine ⟨?_, ?_, ?_⟩
  · have h := c4_since_grammar.2.1 ⟨[], [], [], [], [], [], []⟩ (cs "3day")
      (cs "3") (cs "day") 86400 (by decide) (by decide) (by decide) (by decide)
    simpa using h
  · have h := c4_since_grammar.1 ⟨[], [], [], [], [], [], []⟩ (cs "7") (cs "7")
      (by decide) (by decide) (by decide)
    simpa using h
  · apply c4_since_grammar.2.2.1
    rintro d u heq hne hdig -
    have hlow : toLowerStr (cs "badvalue") = cs "badvalue" := by decide
    rw [hlow] at heq
    cases d with
    | nil => exact hne rfl
    | cons c d' =>
      have heq' : ('b' :: cs "advalue" : Str) = c :: (d' ++ u) := heq
      have hc : 'b' = c := by injection heq'
      have hcd : c.isDigit = true :=
        (by simpa [List.all_cons, Bool.and_eq_true] using hdig :
          c.isDigit = true ∧ d'.all Char.isDigit = true).1
    
      rw [← hc] at hcd
      exact absurd hcd (by decide)

/-- C5: every token contributes exactly one entry somewhere: each
facet-builder iteration grows the total facet term count by exactly one
unless the term is a failing `since:` term (which adds nothing); over a
whole query the facet term counts plus the dropped `since` terms equal the
token count (plus the focus seed); each `toObject` iteration adds exactly
one value, and the flat output's total value count equals the token count. -/
theorem c5_no_token_dropped :
    (∀ (st : FState) (t : Str), totalFState (applyTerm st t) =
      totalFState st + (if sinceDropped t = true then 0 else 1)) ∧
    (∀ (s : Str) (f : FocusFilter),
      facetTermsCount (generateFacetedFilter s f) + countDropped s =
        (tokenize s).length + (initUser f).length) ∧
    (∀ (obj : List (Str × List Str)) (k v : Str),
      flatCount (pushField obj k v) = flatCount obj + 1) ∧
    (∀ s : Str, flatCount (toObject s) = (tokenize s).length) := by
  refine ⟨fun st t => (applyTerm_user_total st t).2, ?_, flatCount_pushField, ?_⟩
  · intro s f
    have hcount : facetTermsCount (generateFacetedFilter s f) =
        totalFState ((tokenize s).foldl applyTerm
          ⟨[], [], [], [], [], [], initUser f⟩) := by
      simp [generateFacetedFilter, facetTermsCount, totalFState]
      omega
    have hfold := foldl_applyTerm_total (tokenize s)
      ⟨[], [], [], [], [], [], initUser f⟩
    have hinit : totalFState ⟨[], [], [], [], [], [], initUser f⟩ =
        (initUser f).length := by
      simp [totalFState]
    unfold countDropped
    omega
  · intro s
    have h := flatCount_foldl (tokenize s) []
    have h0 : flatCount ([] : List (Str × List Str)) = 0 := rfl
    unfold toObject
    omega

/-- C6: for every input and focus filter, `generateFacetedFilter` returns a
record with exactly the seven keys `any, quote, since, tag, text, uri, user`
in that order, each present even with an empty term list, and the fixed
operators: `and` for `any`, `quote`, `since`, `tag`, `text`; `or` for `uri`
and `user`. -/
theorem c6_fixed_facets (s : Str) (f : FocusFilter) :
    (generateFacetedFilter s f).map Prod.fst =
      [cs "any", cs "quote", cs "since", cs "tag", cs "text", cs "uri", cs "user"] ∧
    facetOp (generateFacetedFilter s f) (cs "any") = some (cs "and") ∧
    facetOp (generateFacetedFilter s f) (cs "quote") = some (cs "and") ∧
    facetOp (generateFacetedFilter s f) (cs "since") = some (cs "and") ∧
    facetOp (generateFacetedFilter s f) (cs "tag") = some (cs "and") ∧
    facetOp (generateFacetedFilter s f) (cs "text") = some (cs "and") ∧
    facetOp (generateFacetedFilter s f) (cs "uri") = some (cs "or") ∧
    facetOp (generateFacetedFilter s f) (cs "user") = some (cs "or") :=
  ⟨rfl, rfl, rfl, rfl, rfl, rfl, rfl, rfl⟩

/-- C8: a non-empty focus `user` value is seeded as the first element of the
`user` facet's terms, ahead of every `user:` term parsed from the query; in
particular `generateFacetedFilter('foo bar', { user: 'alice' })` gives
`user.terms = ['alice']` and `any.terms = ['foo', 'bar']`. -/
theorem c8_focus_user_first (s u : Str) (hu : u ≠ []) :
    facetTerms (generateFacetedFilter s ⟨some u⟩) (cs "user") =
      FTerm.str u :: facetTerms (generateFacetedFilter s ⟨none⟩) (cs "user") ∧
    facetTerms (generateFacetedFilter (cs "foo bar") ⟨some (cs "alice")⟩)
      (cs "user") = [FTerm.str (cs "alice")] ∧
    facetTerms (generateFacetedFilter (cs "foo bar") ⟨some (cs "alice")⟩)
      (cs "any") = [FTerm.str (cs "foo"), FTerm.str (cs "bar")] := by
  refine ⟨?_, by decide, by decide⟩
  have h1 : facetTerms (generateFacetedFilter s ⟨some u⟩) (cs "user") =
      (((tokenize s).foldl applyTerm
        ⟨[], [], [], [], [], [], initUser ⟨some u⟩⟩).user).map FTerm.str := rfl
  have h2 : facetTerms (generateFacetedFilter s ⟨none⟩) (cs "user") =
      (((tokenize s).foldl applyTerm
        ⟨[], [], [], [], [], [], initUser ⟨none⟩⟩).user).map FTerm.str := rfl
  have hseed : initUser ⟨some u⟩ = [u] := by
    have : u.isEmpty = false := by
      cases u with
      | nil => exact absurd rfl hu
      | cons a l => rfl
    simp [initUser, this]
  have hseed2 : initUser (⟨none⟩ : FocusFilter) = [] := rfl
  rw [h1, h2, foldl_applyTerm_user, foldl_applyTerm_user, hseed, hseed2]
  simp

/-- C8 witness: the seeding statement applied at `foo bar` with focus user
`alice`. -/
theorem c8_witness :
    facetTerms (generateFacetedFilter (cs "foo bar") ⟨some (cs "alice")⟩)
      (cs "user") =
      FTerm.str (cs "alice") ::
        facetTerms (generateFacetedFilter (cs "foo bar") ⟨none⟩) (cs "user") :=
  (c8_focus_user_first (cs "foo bar") (cs "alice") (by decide)).1

/-- C9: `toObject` renames the field `tag` to `tags` and renames no other
field; under each output key the values of the tokens mapped to it
accumulate in order of appearance, the key being present exactly when some
token contributes to it; e.g. `toObject('tag:x tag:y') = { tags: [x, y] }`. -/
theorem c9_toObject_accumulation :
    backendFilter (cs "tag") = cs "tags" ∧
    (∀ f : Str, f ≠ cs "tag" → backendFilter f = f) ∧
    (∀ s k : Str,
      getField (toObject s) k =
        if flatVals (tokenize s) k = [] then none
        else some (flatVals (tokenize s) k)) ∧
    toObject (cs "tag:x tag:y") = [(cs "tags", [cs "x", cs "y"])] := by
  refine ⟨by decide, ?_, ?_, by decide⟩
  · intro f hf
    simp [backendFilter, hf]
  · intro s k
    rcases getField_foldl_flatStep (tokenize s) [] k with ⟨h1, h2⟩
    have h0 : getField [] k = none := rfl
    rw [h0] at h1 h2
    simp only [Option.getD_none, List.nil_append] at h1
    by_cases hv : flatVals (tokenize s) k = []
    · rw [if_pos hv]
      show getField ((tokenize s).foldl flatStep []) k = none
      exact h2.mpr ⟨rfl, hv⟩
    · rw [if_neg hv]
      show getField ((tokenize s).foldl flatStep []) k =
        some (flatVals (tokenize s) k)
      rcases hopt : getField ((tokenize s).foldl flatStep []) k with - | vs
      · exact absurd (h2.mp hopt).2 hv
      · rw [hopt] at h1
        simp only [Option.getD_some] at h1
        rw [h1]

/-- C9 witness: the accumulation statement applied at `tag:x tag:y` and the
no-rename statement at `uri`. -/
theorem c9_witness :
    backendFilter (cs "uri") = cs "uri" ∧
    getField (toObject (cs "tag:x tag:y")) (cs "tags") =
      (if flatVals (tokenize (cs "tag:x tag:y")) (cs "tags") = [] then none
       else some (flatVals (tokenize (cs "tag:x tag:y")) (cs "tags"))) :=
  ⟨c9_toObject_accumulation.2.1 (cs "uri") (by decide),
   c9_toObject_accumulation.2.2.1 (cs "tag:x tag:y") (cs "tags")⟩
